import Mathlib

/-!
# Verification of the deferred-value lookup-table resolution engine

Shallow embedding of `deployTimeLookup` (region/fact lookup) and its helpers
`tokenizedMap`, `replaceAll`, `ucfirst` from the repository source, together
with a model (from the specification) of the external collaborators:
the output scope (construct tree of a stack), the table construct
(`CfnMapping` with `setValue`/`findInMap`) and the fact registry
(`RegionInfo.get(region).domainSuffix`).

Strings are modelled by Lean `String` (lists of characters); the JavaScript
record `Record<string, string>` is modelled by an association list in
insertion order (a record has unique keys, so theorems that quantify over
arbitrary lookup maps carry a `Nodup` hypothesis on the keys).
-/

namespace RegionLookup

/-- The deploy-time pseudo token for the current region (`Aws.REGION`).
An opaque symbolic marker string; its concrete spelling is irrelevant,
it only needs to be a fixed token distinct from `Aws.URL_SUFFIX`. -/
def Aws.REGION : String := "<token.AWS.Region>"

/-- The deploy-time pseudo token for the current domain suffix
(`Aws.URL_SUFFIX`). -/
def Aws.URL_SUFFIX : String := "<token.AWS.URLSuffix>"

/-- Modelled from the spec: the external context key a caller can set to
broaden the set of target partitions considered (`cxapi.TARGET_PARTITIONS`,
supplied by an out-of-scope collaborator package). -/
def TARGET_PARTITIONS : String := "target-partitions"

/-! ## JavaScript-faithful string splitting and `replaceAll`

The source defines
`replaceAll(x, pat, replacement) = x.split(pat).join(replacement)`.
JavaScript `String.prototype.split` with a string separator splits on
every non-overlapping occurrence, scanning left to right; with the empty
separator it splits into individual characters (and `"".split("")` is `[]`).
`join` is intercalation. We embed this on `List Char`. -/

/-- JavaScript `x.split(pat)` for a NON-empty string separator `pat`:
leftmost, non-overlapping occurrences. The recursion consumes `fuel`
(any bound on the length of `x`; `splitGo` passes `x.length`), which
keeps the definition structurally recursive and hence evaluable by the
kernel; the `pat ≠ []` conjunct in the guard keeps each step from
stalling, and `jsSplit` dispatches the empty-separator case. -/
def splitGoFuel (pat : List Char) : Nat → List Char → List (List Char)
  | _, [] => [[]]
  | 0, _ :: _ => [[]]
  | fuel + 1, c :: rest =>
    if pat.isPrefixOf (c :: rest) ∧ pat ≠ [] then
      [] :: splitGoFuel pat fuel ((c :: rest).drop pat.length)
    else
      match splitGoFuel pat fuel rest with
      | [] => [[c]]
      | p :: ps => (c :: p) :: ps

/-- JavaScript `x.split(pat)` for a non-empty separator. -/
def splitGo (pat : List Char) (x : List Char) : List (List Char) :=
  splitGoFuel pat x.length x

/-- JavaScript `x.split(pat)` including the empty-separator case. -/
def jsSplit (pat : List Char) (x : List Char) : List (List Char) :=
  if pat = [] then x.map (fun c => [c]) else splitGo pat x

/-- `replaceAll` from the source: `x.split(pat).join(replacement)`. -/
def replaceAllL (x pat rep : List Char) : List Char :=
  List.intercalate rep (jsSplit pat x)

/-- `replaceAll(x: string, pat: string, replacement: string)` from the
source, on `String`. -/
def replaceAll (x pat replacement : String) : String :=
  String.mk (replaceAllL x.data pat.data replacement.data)

/-- `ucfirst(x) = x.substr(0,1).toUpperCase() + x.substr(1)` from the
source (ASCII capitalization of the first character). -/
def ucfirst (x : String) : String :=
  match x.data with
  | [] => ""
  | c :: rest => String.mk (c.toUpper :: rest)

/-! ## The fact registry and the pattern tokenizer -/

/-- Modelled from the spec: the external fact registry
(`RegionInfo.get(region).domainSuffix`). For a region key it yields the
registered concrete domain suffix, or `none` when no suffix is
registered. The source guards with `if (info?.domainSuffix)`, a JavaScript
truthiness test, so a registered EMPTY suffix is also skipped; the model
keeps `some ""` distinct from `none` to reflect that faithfully. -/
def DomainSuffixRegistry : Type := String → Option String

/-- One entry of `tokenizedMap`: tokenize a single value for its region
key. First the domain-suffix substitution (when a truthy suffix is
registered for the key), then the region-code substitution, exactly in
the source's order. -/
def tokenizeValue (ds : DomainSuffixRegistry) (region value : String) : String :=
  let afterSuffix :=
    match ds region with
    | some sfx => if sfx = "" then value else replaceAll value sfx Aws.URL_SUFFIX
    | none => value
  replaceAll afterSuffix region Aws.REGION

/-- `tokenizedMap(regionMap)` from the source: tokenize every entry,
keyed by the same region keys. -/
def tokenizedMap (ds : DomainSuffixRegistry) (regionMap : List (String × String)) :
    List (String × String) :=
  regionMap.map (fun p => (p.1, tokenizeValue ds p.1 p.2))

/-! ## The output scope and the table construct (modelled from the spec) -/

/-- Modelled from the spec: a table construct (`CfnMapping`) cell store,
one entry per (top-level key, second-level key) pair. `setValue`
overwrites an existing cell in place and appends a fresh one. -/
abbrev Cells : Type := List ((String × String) × String)

/-- Modelled from the spec: `CfnMapping.setValue(key1, key2, value)` —
set the cell at `(key1, key2)`, overwriting any prior value. -/
def setCell (cells : Cells) (k1 k2 v : String) : Cells :=
  match cells with
  | [] => [((k1, k2), v)]
  | (p, w) :: rest =>
    if p = (k1, k2) then (p, v) :: rest else (p, w) :: setCell rest k1 k2 v

/-- Read a cell of a table construct. -/
def getCell (cells : Cells) (k1 k2 : String) : Option String :=
  match cells with
  | [] => none
  | (p, w) :: rest => if p = (k1, k2) then some w else getCell rest k1 k2

/-- Modelled from the spec: a child construct registered in an output
scope — either a table construct (`CfnMapping`) with its cells, or a
construct of some other kind. -/
inductive Construct : Type
  | cfnMapping (cells : Cells) : Construct
  | other : Construct
deriving DecidableEq

/-- Modelled from the spec: the output scope (the stack's construct
tree), a registry of children keyed by construct id, in registration
order. -/
structure Scope : Type where
  children : List (String × Construct)
deriving DecidableEq

/-- Find the first entry with a given id in a children list. -/
def findChildList (children : List (String × Construct)) (id : String) : Option Construct :=
  match children with
  | [] => none
  | (i, c) :: rest =>
    if i = id then some c else findChildList rest id

/-- Modelled from the spec: `stack.node.tryFindChild(id)` — the child
registered under `id`, if any. -/
def tryFindChild (st : Scope) (id : String) : Option Construct :=
  findChildList st.children id

/-- Replace the first entry with a given id in a children list, or
append a fresh entry when absent. -/
def setChildList (children : List (String × Construct)) (id : String) (c : Construct) :
    List (String × Construct) :=
  match children with
  | [] => [(id, c)]
  | (i, d) :: rest =>
    if i = id then (i, c) :: rest
    else (i, d) :: setChildList rest id c

/-- Replace the child registered under `id` (or register it afresh when
absent). This is the net effect on the scope of the source's
find-or-create-then-populate sequence: `new CfnMapping(stack, id)`
registers the child, and subsequent `setValue` calls mutate that same
registered object in place. -/
def setChild (st : Scope) (id : String) (c : Construct) : Scope :=
  ⟨setChildList st.children id c⟩

/-- How many children a scope registers under a given id. -/
def countId (st : Scope) (id : String) : Nat :=
  (st.children.filter (fun p => p.1 = id)).length

/-! ## The resolution engine -/

/-- The expression returned by a resolution: either a literal/collapsed
string, or the deferred lookup `Fn::FindInMap(mapId, topKey, secondKey)`
produced by `mapping.findInMap`. -/
inductive Expr : Type
  | lit (s : String) : Expr
  | findInMap (mapId topKey secondKey : String) : Expr
deriving DecidableEq

/-- The failures of a resolution call. `missingFact` is the explicit
`throw new Error(...)` of the source. `typeMismatch` models the
JavaScript `TypeError` raised when the unchecked cast
`tryFindChild(mapId) as CfnMapping` produced a child of another kind and
the code then invokes `setValue` on it. -/
inductive LookupError : Type
  | missingFact (msg : String) : LookupError
  | typeMismatch (id : String) : LookupError
deriving DecidableEq

/-- The message of the source's `throw new Error(...)` for an empty
lookup map without default. -/
def missingFactMessage (factName : String) : String :=
  "region-info: don\x27t have any information for " ++ factName ++
    ". Use \x27Fact.register\x27 to provide values, or add partitions to the \x27" ++
    TARGET_PARTITIONS ++ "\x27 context value."

/-- `factName.includes(':') ? factName.split(':') : [factName, 'value']`,
destructured as `[factClass, factParam]` (only the first two split parts
are bound). -/
def splitFactName (factName : String) : String × String :=
  if factName.data.contains ':' then
    let parts := (jsSplit [':'] factName.data).map String.mk
    (parts.getD 0 "", parts.getD 1 "")
  else
    (factName, "value")

/-- `factParam.replace(/[^a-zA-Z0-9]/g, '_')`: every character outside
`[A-Za-z0-9]` becomes an underscore. -/
def factKeyOf (factParam : String) : String :=
  String.mk (factParam.data.map (fun c => if c.isAlphanum then c else '_'))

/-- The populate loop of the source: for each `(region, value)` entry of
the lookup map, `mapping.setValue(region, factKey, value)`. -/
def populate (cells : Cells) (factKey : String) (lookupMap : List (String × String)) : Cells :=
  match lookupMap with
  | [] => cells
  | (region, v) :: rest => populate (setCell cells region factKey v) factKey rest

/-- The table identity derived from a fact name:
`const mapId = ucfirst(factClass) + "Map"`. -/
def mapIdOf (factName : String) : String :=
  ucfirst (splitFactName factName).1 ++ "Map"

/-- The row key derived from a fact name:
`const factKey = factParam.replace(/[^a-zA-Z0-9]/g, '_')`. -/
def rowKeyOf (factName : String) : String :=
  factKeyOf (splitFactName factName).2

/-- First-match association lookup in a lookup map (a record has unique
keys, so this is the record's value at the key). -/
def lookupPairs (m : List (String × String)) (k : String) : Option String :=
  match m with
  | [] => none
  | (k0, v) :: rest => if k0 = k then some v else lookupPairs rest k

/-- Lines 28–43 of the source (identity derivation, find-or-create,
populate, deferred lookup): derive `mapId` and `factKey` from the fact
name, find or create the table construct in the scope, set every entry's
cell, return `mapping.findInMap(Aws.REGION, factKey)`. On a child of the
wrong kind the unchecked cast lets control reach `setValue`, which fails
dynamically (`LookupError.typeMismatch`) before any scope mutation. -/
def materializeTable (st : Scope) (factName : String)
    (lookupMap : List (String × String)) : Except LookupError Expr × Scope :=
  match tryFindChild st (mapIdOf factName) with
  | some Construct.other =>
      (Except.error (LookupError.typeMismatch (mapIdOf factName)), st)
  | some (Construct.cfnMapping cells) =>
      (Except.ok (Expr.findInMap (mapIdOf factName) Aws.REGION (rowKeyOf factName)),
       setChild st (mapIdOf factName)
         (Construct.cfnMapping (populate cells (rowKeyOf factName) lookupMap)))
  | none =>
      (Except.ok (Expr.findInMap (mapIdOf factName) Aws.REGION (rowKeyOf factName)),
       setChild st (mapIdOf factName)
         (Construct.cfnMapping (populate [] (rowKeyOf factName) lookupMap)))

/-- `deployTimeLookup(stack, factName, lookupMap, defaultValue?)` from the
source, with the scope threaded explicitly (the JavaScript function
mutates `stack`; the model returns the resulting scope alongside the
result, also on the error paths, where the scope is returned unchanged
because the source throws before mutating). -/
def deployTimeLookup (ds : DomainSuffixRegistry) (st : Scope) (factName : String)
    (lookupMap : List (String × String)) (defaultValue : Option String) :
    Except LookupError Expr × Scope :=
  match lookupMap with
  | [] =>
    match defaultValue with
    | none => (Except.error (LookupError.missingFact (missingFactMessage factName)), st)
    | some d => (Except.ok (Expr.lit d), st)
  | _ :: _ =>
    let tokenizedValues := (tokenizedMap ds lookupMap).map Prod.snd
    let t0 := tokenizedValues.headD ""
    if tokenizedValues.all (fun v => v == t0) then
      (Except.ok (Expr.lit t0), st)
    else
      materializeTable st factName lookupMap


/-! ## Basic lemmas about the scope and cell model -/

theorem findChildList_setChildList_self (l : List (String × Construct)) (id : String)
    (c : Construct) : findChildList (setChildList l id c) id = some c := by
  induction l with
  | nil => simp [setChildList, findChildList]
  | cons hd tl ih =>
    obtain ⟨i, d⟩ := hd
    by_cases h : i = id
    · simp [setChildList, findChildList, h]
    · simp [setChildList, findChildList, h, ih]

theorem tryFindChild_setChild_self (st : Scope) (id : String) (c : Construct) :
    tryFindChild (setChild st id c) id = some c := by
  simp [tryFindChild, setChild, findChildList_setChildList_self]

theorem countId_setChildList_le (l : List (String × Construct)) (id : String) (c : Construct)
    (h : (l.filter (fun p => p.1 = id)).length ≤ 1) :
    ((setChildList l id c).filter (fun p => p.1 = id)).length ≤ 1 := by
  induction l with
  | nil => simp [setChildList]
  | cons hd tl ih =>
    obtain ⟨i, d⟩ := hd
    by_cases hi : i = id
    · subst hi
      simp only [setChildList, if_pos rfl]
      simp only [List.filter_cons, decide_eq_true_eq, if_pos rfl, List.length_cons] at h ⊢
      simpa using h
    · simp only [setChildList, if_neg hi]
      simp only [List.filter_cons, decide_eq_true_eq, if_neg hi] at h ⊢
      exact ih h

theorem countId_setChild_le (st : Scope) (id : String) (c : Construct)
    (h : countId st id ≤ 1) : countId (setChild st id c) id ≤ 1 := by
  simpa [countId, setChild] using countId_setChildList_le st.children id c (by simpa [countId] using h)

theorem getCell_setCell_self (cells : Cells) (k1 k2 v : String) :
    getCell (setCell cells k1 k2 v) k1 k2 = some v := by
  induction cells with
  | nil => simp [setCell, getCell]
  | cons hd tl ih =>
    obtain ⟨p, w⟩ := hd
    by_cases h : p = (k1, k2)
    · simp [setCell, getCell, h]
    · simp [setCell, getCell, h, ih]

theorem getCell_setCell_ne (cells : Cells) (k1 k2 k1' k2' v : String) (h : k1 ≠ k1') :
    getCell (setCell cells k1' k2' v) k1 k2 = getCell cells k1 k2 := by
  induction cells with
  | nil =>
    have h1 : ¬ ((k1', k2') = (k1, k2)) := by
      intro he
      obtain ⟨ha, hb⟩ := Prod.mk.inj he
      exact h ha.symm
    simp [setCell, getCell, h1]
  | cons hd tl ih =>
    obtain ⟨p, w⟩ := hd
    by_cases hp : p = (k1', k2')
    · subst hp
      have h1 : ¬ ((k1', k2') = (k1, k2)) := by
        intro he
        obtain ⟨ha, hb⟩ := Prod.mk.inj he
        exact h ha.symm
      simp [setCell, getCell, h1]
    · simp [setCell, getCell, hp, ih]

theorem getCell_populate_notMem (cells : Cells) (rk : String)
    (m : List (String × String)) (region : String)
    (hnot : region ∉ m.map Prod.fst) :
    getCell (populate cells rk m) region rk = getCell cells region rk := by
  induction m generalizing cells with
  | nil => simp [populate]
  | cons hd tl ih =>
    obtain ⟨r0, v0⟩ := hd
    simp only [List.map_cons, List.mem_cons] at hnot
    push_neg at hnot
    simp only [populate]
    rw [ih _ hnot.2, getCell_setCell_ne _ region rk r0 rk v0 hnot.1]

theorem getCell_populate (cells : Cells) (rk : String) (m : List (String × String))
    (region v : String) (hnd : (m.map Prod.fst).Nodup)
    (hm : lookupPairs m region = some v) :
    getCell (populate cells rk m) region rk = some v := by
  induction m generalizing cells with
  | nil => simp [lookupPairs] at hm
  | cons hd tl ih =>
    obtain ⟨r0, v0⟩ := hd
    simp only [List.map_cons, List.nodup_cons] at hnd
    by_cases hr : r0 = region
    · subst hr
      rw [show lookupPairs ((r0, v0) :: tl) r0 = some v0 by simp [lookupPairs]] at hm
      rw [Option.some.injEq] at hm
      subst hm
      simp only [populate]
      rw [getCell_populate_notMem _ _ _ _ hnd.1, getCell_setCell_self]
    · simp only [lookupPairs, if_neg hr] at hm
      simp only [populate]
      exact ih _ hnd.2 hm

/-! ## Claim theorems: degenerate maps, errors, row keys -/

/-- C4: resolving a fact with an empty lookup map and no default fails
with the missing-fact error; the message names the fact and points to
the two remediation paths (explicit registration via `Fact.register`,
and broadening the considered target partitions); no value is
returned. -/
theorem claim4_missing_fact_error (ds : DomainSuffixRegistry) (st : Scope)
    (factName : String) :
    deployTimeLookup ds st factName [] none =
      (Except.error (LookupError.missingFact (missingFactMessage factName)), st)
    ∧ factName.data <:+: (missingFactMessage factName).data
    ∧ ("Fact.register").data <:+: (missingFactMessage factName).data
    ∧ TARGET_PARTITIONS.data <:+: (missingFactMessage factName).data := by
  refine ⟨rfl, ?_, ?_, ?_⟩
  · exact ⟨("region-info: don\x27t have any information for ").data,
      (". Use \x27Fact.register\x27 to provide values, or add partitions to the \x27" ++
        TARGET_PARTITIONS ++ "\x27 context value.").data,
      by simp [missingFactMessage]⟩
  · exact ⟨("region-info: don\x27t have any information for " ++ factName ++ ". Use \x27").data,
      ("\x27 to provide values, or add partitions to the \x27" ++
        TARGET_PARTITIONS ++ "\x27 context value.").data,
      by simp [missingFactMessage]⟩
  · exact ⟨("region-info: don\x27t have any information for " ++ factName ++
        ". Use \x27Fact.register\x27 to provide values, or add partitions to the \x27").data,
      ("\x27 context value.").data,
      by simp [missingFactMessage]⟩

/-- C6: resolving a fact with an empty lookup map and a default value
returns the default verbatim as a literal, and the scope is unchanged
(no table construct is created). -/
theorem claim6_default_fallback (ds : DomainSuffixRegistry) (st : Scope)
    (factName d : String) :
    deployTimeLookup ds st factName [] (some d) = (Except.ok (Expr.lit d), st) := rfl

/-- C10: when resolution fails because the lookup map is empty and no
default is supplied, the throw happens before any scope mutation: the
resulting scope is exactly the input scope, so the failing call adds no
child. -/
theorem claim10_failing_call_leaves_scope_unchanged (ds : DomainSuffixRegistry)
    (st : Scope) (factName : String) :
    (deployTimeLookup ds st factName [] none).2 = st
    ∧ (deployTimeLookup ds st factName [] none).1 =
        Except.error (LookupError.missingFact (missingFactMessage factName)) :=
  ⟨rfl, rfl⟩

/-- C7: a single-entry lookup map always collapses — the call returns the
single entry's tokenized form as a literal/symbolic expression and the
scope is unchanged (no table is created or populated). -/
theorem claim7_singleton_collapses (ds : DomainSuffixRegistry) (st : Scope)
    (factName r v : String) (dv : Option String) :
    deployTimeLookup ds st factName [(r, v)] dv =
      (Except.ok (Expr.lit (tokenizeValue ds r v)), st) := by
  simp [deployTimeLookup, tokenizedMap]

/-- C8: row-key derivation is total (a plain function of the fact
param): param `"a.b-c"` yields `"a_b_c"`, and every character of any
derived row key is alphanumeric or an underscore. -/
theorem claim8_row_key_sanitization (p : String) (c : Char)
    (hc : c ∈ (factKeyOf p).data) :
    factKeyOf "a.b-c" = "a_b_c" ∧ (c.isAlphanum = true ∨ c = '_') := by
  refine ⟨by decide, ?_⟩
  simp only [factKeyOf, List.mem_map] at hc
  obtain ⟨a, _, ha⟩ := hc
  by_cases h : a.isAlphanum
  · left
    rw [← ha]
    simp [h]
  · right
    rw [← ha]
    simp [h]

/-- Witness for C8 at param `"a.b-c"` and output character `a`. -/
theorem claim8_row_key_sanitization_witness :
    factKeyOf "a.b-c" = "a_b_c" ∧ ('a'.isAlphanum = true ∨ 'a' = '_') :=
  claim8_row_key_sanitization "a.b-c" 'a' (by decide)

/-- C9: when no domain suffix is registered for a key (or the registered
suffix is empty, a falsy value in the source's guard), the tokenizer
skips the domain-suffix substitution for that key only, still applies
the region-code substitution, and does not fail. -/
theorem claim9_absent_suffix_skipped (ds : DomainSuffixRegistry) (region value : String)
    (h : ds region = none ∨ ds region = some "") :
    tokenizeValue ds region value = replaceAll value region Aws.REGION := by
  rcases h with h | h <;> simp [tokenizeValue, h]

/-- Witness for C9: a registry with no suffix registered for key `"a"`. -/
theorem claim9_absent_suffix_skipped_witness :
    ((fun _ => none : DomainSuffixRegistry) "a" = none ∨
      (fun _ => none : DomainSuffixRegistry) "a" = some "")
    ∧ tokenizeValue (fun _ => none) "a" "va" = replaceAll "va" "a" Aws.REGION :=
  ⟨Or.inl rfl, claim9_absent_suffix_skipped (fun _ => none) "a" "va" (Or.inl rfl)⟩

/-- C5: if, when materialization is reached, the scope already holds a
child under the derived table identity that is not a table construct,
the call fails fast with the type-mismatch error (the JavaScript
`TypeError` raised on first use of the mis-typed child) and the scope is
left unchanged — it does not silently proceed with the mis-typed
child. -/
theorem claim5_mistyped_child_fails_fast (ds : DomainSuffixRegistry) (st : Scope)
    (factName : String) (m : List (String × String)) (dv : Option String)
    (hother : tryFindChild st (mapIdOf factName) = some Construct.other)
    (hne : m ≠ [])
    (hnc : ((tokenizedMap ds m).map Prod.snd).all
        (fun v => v == ((tokenizedMap ds m).map Prod.snd).headD "") = false) :
    deployTimeLookup ds st factName m dv =
      (Except.error (LookupError.typeMismatch (mapIdOf factName)), st) := by
  match m, hne with
  | (r, v) :: rest, _ =>
    have hcond : ¬ (((tokenizedMap ds ((r, v) :: rest)).map Prod.snd).all
        (fun w => w == ((tokenizedMap ds ((r, v) :: rest)).map Prod.snd).headD "") = true) := by
      intro hT
      rw [hT] at hnc
      cases hnc
    simp only [deployTimeLookup]
    rw [if_neg hcond]
    simp [materializeTable, hother]

/-- Witness for C5: a scope already holding a non-table child `"FooMap"`
and a two-entry map whose tokenized values differ. -/
theorem claim5_mistyped_child_fails_fast_witness :
    tryFindChild ⟨[("FooMap", Construct.other)]⟩ (mapIdOf "foo") = some Construct.other
    ∧ ([("a", "x"), ("b", "y")] : List (String × String)) ≠ []
    ∧ deployTimeLookup (fun _ => none) ⟨[("FooMap", Construct.other)]⟩ "foo"
        [("a", "x"), ("b", "y")] none =
      (Except.error (LookupError.typeMismatch (mapIdOf "foo")),
       ⟨[("FooMap", Construct.other)]⟩) := by
  refine ⟨by decide, by decide, ?_⟩
  exact claim5_mistyped_child_fails_fast (fun _ => none) ⟨[("FooMap", Construct.other)]⟩
    "foo" [("a", "x"), ("b", "y")] none (by decide) (by decide) (by decide)

/-- C1: for a non-empty lookup map, resolution collapses — returns the
first entry's tokenized form as a literal with the scope unchanged — if
and only if every tokenized value is string-equal to the first one;
otherwise it proceeds to materialize the lookup table. -/
theorem claim1_collapse_iff (ds : DomainSuffixRegistry) (st : Scope)
    (factName : String) (m : List (String × String)) (dv : Option String)
    (hne : m ≠ []) (hnd : (m.map Prod.fst).Nodup) :
    (deployTimeLookup ds st factName m dv =
        (Except.ok (Expr.lit (((tokenizedMap ds m).map Prod.snd).headD "")), st)
      ↔ ∀ v ∈ (tokenizedMap ds m).map Prod.snd,
          v = ((tokenizedMap ds m).map Prod.snd).headD "")
    ∧ ((¬ ∀ v ∈ (tokenizedMap ds m).map Prod.snd,
          v = ((tokenizedMap ds m).map Prod.snd).headD "") →
        deployTimeLookup ds st factName m dv = materializeTable st factName m) := by
  match m, hne with
  | (r, v) :: rest, _ =>
    by_cases hcond : ((tokenizedMap ds ((r, v) :: rest)).map Prod.snd).all
        (fun w => w == ((tokenizedMap ds ((r, v) :: rest)).map Prod.snd).headD "") = true
    · have hall : ∀ w ∈ (tokenizedMap ds ((r, v) :: rest)).map Prod.snd,
          w = ((tokenizedMap ds ((r, v) :: rest)).map Prod.snd).headD "" := by
        intro w hw
        have := List.all_eq_true.mp hcond w hw
        exact eq_of_beq this
      constructor
      · constructor
        · intro _
          exact hall
        · intro _
          simp only [deployTimeLookup]
          rw [if_pos hcond]
      · intro hcontra
        exact absurd hall hcontra
    · have hdtl : deployTimeLookup ds st factName ((r, v) :: rest) dv =
          materializeTable st factName ((r, v) :: rest) := by
        simp only [deployTimeLookup]
        rw [if_neg hcond]
      have hnall : ¬ ∀ w ∈ (tokenizedMap ds ((r, v) :: rest)).map Prod.snd,
          w = ((tokenizedMap ds ((r, v) :: rest)).map Prod.snd).headD "" := by
        intro hall
        apply hcond
        rw [List.all_eq_true]
        intro w hw
        exact beq_iff_eq.mpr (hall w hw)
      refine ⟨⟨?_, ?_⟩, fun _ => hdtl⟩
      · intro heq
        exfalso
        rw [hdtl] at heq
        rcases hfc : tryFindChild st (mapIdOf factName) with _ | c
        · rw [materializeTable, hfc] at heq
          simp at heq
        · rcases c with cells | _
          · rw [materializeTable, hfc] at heq
            simp at heq
          · rw [materializeTable, hfc] at heq
            simp at heq
      · intro hall
        exact absurd hall hnall

/-- Witness for C1: a uniform two-entry map over a registry with suffix
`"example"` for both keys; both values tokenize identically. -/
theorem claim1_collapse_iff_witness :
    (([("a", "svc.a.example"), ("b", "svc.b.example")] : List (String × String)) ≠ []
      ∧ ((([("a", "svc.a.example"), ("b", "svc.b.example")] : List (String × String)).map
            Prod.fst).Nodup))
    ∧ (deployTimeLookup
          (fun k => if k = "a" ∨ k = "b" then some "example" else none) ⟨[]⟩ "x"
          [("a", "svc.a.example"), ("b", "svc.b.example")] none =
        (Except.ok (Expr.lit (((tokenizedMap
            (fun k => if k = "a" ∨ k = "b" then some "example" else none)
            [("a", "svc.a.example"), ("b", "svc.b.example")]).map Prod.snd).headD "")),
         ⟨[]⟩)
      ↔ ∀ w ∈ (tokenizedMap
            (fun k => if k = "a" ∨ k = "b" then some "example" else none)
            [("a", "svc.a.example"), ("b", "svc.b.example")]).map Prod.snd,
          w = ((tokenizedMap
            (fun k => if k = "a" ∨ k = "b" then some "example" else none)
            [("a", "svc.a.example"), ("b", "svc.b.example")]).map Prod.snd).headD "") := by
  refine ⟨⟨by decide, by decide⟩, ?_⟩
  exact (claim1_collapse_iff
    (fun k => if k = "a" ∨ k = "b" then some "example" else none) ⟨[]⟩ "x"
    [("a", "svc.a.example"), ("b", "svc.b.example")] none (by decide) (by decide)).1

/-! ## The pattern tokenizer substitutes every occurrence (C3) -/

/-- Modelled from the spec: the direct description of one substitution
step — scan the value left to right; wherever the concrete substring
literally occurs, emit the symbolic token and resume AFTER the matched
occurrence (non-overlapping, no re-scan of the emitted replacement);
elsewhere copy the character. `fuel` is any bound on the length of the
scanned list and keeps the recursion structural. -/
def specReplaceEachFuel (pat rep : List Char) : Nat → List Char → List Char
  | _, [] => []
  | 0, l => l
  | fuel + 1, c :: rest =>
    if pat.isPrefixOf (c :: rest) ∧ pat ≠ [] then
      rep ++ specReplaceEachFuel pat rep fuel ((c :: rest).drop pat.length)
    else
      c :: specReplaceEachFuel pat rep fuel rest

/-- Modelled from the spec: replace every non-overlapping literal
occurrence of `pat` in `x` by `rep`, globally, left to right, without
re-scanning replaced regions. -/
def specReplaceEach (pat rep x : List Char) : List Char :=
  specReplaceEachFuel pat rep x.length x

theorem splitGoFuel_ne_nil (pat : List Char) (fuel : Nat) (x : List Char) :
    splitGoFuel pat fuel x ≠ [] := by
  match fuel, x with
  | _, [] => simp [splitGoFuel]
  | 0, c :: rest => simp [splitGoFuel]
  | fuel + 1, c :: rest =>
    simp only [splitGoFuel]
    split
    · simp
    · split
      · simp
      · simp

theorem intercalate_cons_of_ne_nil (rep a : List Char) (l : List (List Char))
    (h : l ≠ []) :
    List.intercalate rep (a :: l) = a ++ rep ++ List.intercalate rep l := by
  match l, h with
  | b :: t, _ =>
    simp [List.intercalate, List.intersperse_cons_cons]

theorem intercalate_splitGoFuel_eq_spec (pat rep : List Char) (hp : pat ≠ []) :
    ∀ (fuel : Nat) (x : List Char), x.length ≤ fuel →
      List.intercalate rep (splitGoFuel pat fuel x) = specReplaceEachFuel pat rep fuel x := by
  intro fuel
  induction fuel with
  | zero =>
    intro x hx
    have : x = [] := List.length_eq_zero.mp (Nat.le_zero.mp hx)
    subst this
    simp [splitGoFuel, specReplaceEachFuel, List.intercalate]
  | succ fuel ih =>
    intro x hx
    match x with
    | [] => simp [splitGoFuel, specReplaceEachFuel, List.intercalate]
    | c :: rest =>
      by_cases hpre : pat.isPrefixOf (c :: rest) ∧ pat ≠ []
      · have hlen : ((c :: rest).drop pat.length).length ≤ fuel := by
          have h1 : 1 ≤ pat.length := by
            match pat, hp with
            | a :: l, _ => simp
          simp only [List.length_drop, List.length_cons]
          simp only [List.length_cons] at hx
          omega
        simp only [splitGoFuel, specReplaceEachFuel, if_pos hpre]
        rw [intercalate_cons_of_ne_nil _ _ _ (splitGoFuel_ne_nil pat fuel _)]
        rw [ih _ hlen]
        simp
      · have hlen : rest.length ≤ fuel := by
          simp only [List.length_cons] at hx
          omega
        simp only [splitGoFuel, specReplaceEachFuel, if_neg hpre]
        rcases hsp : splitGoFuel pat fuel rest with _ | ⟨p, ps⟩
        · exact absurd hsp (splitGoFuel_ne_nil pat fuel rest)
        · have hmain : List.intercalate rep ((c :: p) :: ps) =
              c :: List.intercalate rep (p :: ps) := by
            rcases ps with _ | ⟨q, t⟩
            · simp [List.intercalate]
            · rw [intercalate_cons_of_ne_nil _ _ _ (by simp : (q :: t : List (List Char)) ≠ []),
                intercalate_cons_of_ne_nil _ _ _ (by simp : (q :: t : List (List Char)) ≠ [])]
              simp
          rw [hmain, ← hsp, ih _ hlen]

/-- C3: the tokenizer applies its substitutions in the fixed order
domain-suffix before region-code (first conjunct: the region-code
substitution is applied to the result of the domain-suffix step), and
each substitution is plain global substring replacement: for a non-empty
pattern, `x.split(pat).join(rep)` equals the direct left-to-right
replacement of every non-overlapping literal occurrence, which never
re-scans an emitted replacement. -/
theorem claim3_tokenizer_order_and_replacement (ds : DomainSuffixRegistry)
    (region value x pat rep : String) (hp : pat ≠ "") :
    tokenizeValue ds region value =
      replaceAll (match ds region with
        | some sfx => if sfx = "" then value else replaceAll value sfx Aws.URL_SUFFIX
        | none => value) region Aws.REGION
    ∧ replaceAll x pat rep = String.mk (specReplaceEach pat.data rep.data x.data) := by
  constructor
  · rfl
  · have hpd : pat.data ≠ [] := by
      intro h
      apply hp
      cases pat
      simp only at h
      simp [h]
    simp only [replaceAll, replaceAllL, jsSplit, if_neg hpd, splitGo, specReplaceEach]
    rw [intercalate_splitGoFuel_eq_spec pat.data rep.data hpd x.data.length x.data le_rfl]

/-- Witness for C3 at the non-empty pattern `"ab"` (note the overlap
candidate input `"aab"`: the single occurrence is replaced and the
result is not re-scanned). -/
theorem claim3_tokenizer_order_and_replacement_witness :
    ("ab" : String) ≠ ""
    ∧ tokenizeValue (fun _ => none) "r" "v" =
        replaceAll (match (fun _ => none : DomainSuffixRegistry) "r" with
          | some sfx => if sfx = "" then "v" else replaceAll "v" sfx Aws.URL_SUFFIX
          | none => "v") "r" Aws.REGION
    ∧ replaceAll "aab" "ab" "b" = String.mk (specReplaceEach "ab".data "b".data "aab".data) := by
  refine ⟨by decide, ?_, ?_⟩
  · exact (claim3_tokenizer_order_and_replacement (fun _ => none) "r" "v" "aab" "ab" "b"
      (by decide)).1
  · exact (claim3_tokenizer_order_and_replacement (fun _ => none) "r" "v" "aab" "ab" "b"
      (by decide)).2

/-! ## Find-or-create is idempotent; later writes win (C2) -/

theorem dtl_scope_cases (ds : DomainSuffixRegistry) (st : Scope) (fn : String)
    (m : List (String × String)) (dv : Option String) (r : Except LookupError Expr)
    (st' : Scope) (h : deployTimeLookup ds st fn m dv = (r, st')) :
    st' = st ∨ ∃ base, st' = setChild st (mapIdOf fn)
        (Construct.cfnMapping (populate base (rowKeyOf fn) m)) := by
  match m with
  | [] =>
    cases dv with
    | none => exact Or.inl (congrArg Prod.snd h).symm
    | some d => exact Or.inl (congrArg Prod.snd h).symm
  | (a, b) :: rest =>
    simp only [deployTimeLookup] at h
    split at h
    · exact Or.inl (congrArg Prod.snd h).symm
    · rcases hfc : tryFindChild st (mapIdOf fn) with _ | c
      · rw [materializeTable, hfc] at h
        exact Or.inr ⟨[], (congrArg Prod.snd h).symm⟩
      · rcases c with cells | _
        · rw [materializeTable, hfc] at h
          exact Or.inr ⟨cells, (congrArg Prod.snd h).symm⟩
        · rw [materializeTable, hfc] at h
          exact Or.inl (congrArg Prod.snd h).symm

/-- C2: across two resolve calls whose fact names share the class
component, the scope holds at most one table construct under the derived
identity afterward; the second call does not fail (it finds and reuses
the table created by the first, or collapses); and when the second call
materializes, the final table holds the second call's value at every
(key, row key) cell it sets — the later write wins. -/
theorem claim2_table_reuse_idempotent (ds : DomainSuffixRegistry) (st0 : Scope)
    (fn1 fn2 : String) (m1 m2 : List (String × String)) (dv1 dv2 : Option String)
    (r1 : Except LookupError Expr) (st1 : Scope)
    (hclass : (splitFactName fn1).1 = (splitFactName fn2).1)
    (hcall1 : deployTimeLookup ds st0 fn1 m1 dv1 = (r1, st1))
    (hcount : countId st0 (mapIdOf fn1) ≤ 1)
    (hkind : ∀ c, tryFindChild st0 (mapIdOf fn1) = some c →
        ∃ cells, c = Construct.cfnMapping cells)
    (hm2 : m2 ≠ []) (hnd2 : (m2.map Prod.fst).Nodup) :
    ∃ r2 st2, deployTimeLookup ds st1 fn2 m2 dv2 = (Except.ok r2, st2)
      ∧ countId st2 (mapIdOf fn1) ≤ 1
      ∧ (r2 = Expr.findInMap (mapIdOf fn1) Aws.REGION (rowKeyOf fn2) →
          ∃ cells, tryFindChild st2 (mapIdOf fn1) = some (Construct.cfnMapping cells)
            ∧ ∀ region w, lookupPairs m2 region = some w →
                getCell cells region (rowKeyOf fn2) = some w) := by
  have hmap : mapIdOf fn2 = mapIdOf fn1 := by
    simp [mapIdOf, hclass]
  have hst1 := dtl_scope_cases ds st0 fn1 m1 dv1 r1 st1 hcall1
  have hcount1 : countId st1 (mapIdOf fn1) ≤ 1 := by
    rcases hst1 with h | ⟨base, h⟩
    · rw [h]; exact hcount
    · rw [h]; exact countId_setChild_le st0 (mapIdOf fn1) _ hcount
  have hkind1 : ∀ c, tryFindChild st1 (mapIdOf fn1) = some c →
      ∃ cells, c = Construct.cfnMapping cells := by
    rcases hst1 with h | ⟨base, h⟩
    · rw [h]; exact hkind
    · intro c hc
      rw [h, tryFindChild_setChild_self] at hc
      exact ⟨_, (Option.some.inj hc).symm⟩
  match m2, hm2 with
  | (a, b) :: rest, _ =>
    by_cases hcond : (((tokenizedMap ds ((a, b) :: rest)).map Prod.snd).all
        (fun w => w == ((tokenizedMap ds ((a, b) :: rest)).map Prod.snd).headD "")) = true
    · refine ⟨Expr.lit (((tokenizedMap ds ((a, b) :: rest)).map Prod.snd).headD ""), st1,
        ?_, hcount1, ?_⟩
      · simp only [deployTimeLookup]
        rw [if_pos hcond]
      · intro h
        cases h
    · have hdtl : deployTimeLookup ds st1 fn2 ((a, b) :: rest) dv2 =
          materializeTable st1 fn2 ((a, b) :: rest) := by
        simp only [deployTimeLookup]
        rw [if_neg hcond]
      rcases hfc : tryFindChild st1 (mapIdOf fn2) with _ | c
      · refine ⟨Expr.findInMap (mapIdOf fn1) Aws.REGION (rowKeyOf fn2),
          setChild st1 (mapIdOf fn1)
            (Construct.cfnMapping (populate [] (rowKeyOf fn2) ((a, b) :: rest))), ?_, ?_, ?_⟩
        · rw [hdtl, materializeTable, hfc, hmap]
        · exact countId_setChild_le st1 (mapIdOf fn1) _ hcount1
        · intro _
          refine ⟨populate [] (rowKeyOf fn2) ((a, b) :: rest),
            tryFindChild_setChild_self st1 (mapIdOf fn1) _, ?_⟩
          intro region w hw
          exact getCell_populate [] (rowKeyOf fn2) ((a, b) :: rest) region w hnd2 hw
      · obtain ⟨cells, hc⟩ := hkind1 c (by rw [← hmap]; exact hfc)
        subst hc
        refine ⟨Expr.findInMap (mapIdOf fn1) Aws.REGION (rowKeyOf fn2),
          setChild st1 (mapIdOf fn1)
            (Construct.cfnMapping (populate cells (rowKeyOf fn2) ((a, b) :: rest))),
          ?_, ?_, ?_⟩
        · rw [hdtl, materializeTable, hfc, hmap]
        · exact countId_setChild_le st1 (mapIdOf fn1) _ hcount1
        · intro _
          refine ⟨populate cells (rowKeyOf fn2) ((a, b) :: rest),
            tryFindChild_setChild_self st1 (mapIdOf fn1) _, ?_⟩
          intro region w hw
          exact getCell_populate cells (rowKeyOf fn2) ((a, b) :: rest) region w hnd2 hw

/-- Witness for C2: facts `"widget:alpha"` then `"widget:beta"` against an
initially empty scope, with lookup maps that do not collapse. -/
theorem claim2_table_reuse_idempotent_witness :
    ∃ r2 st2, deployTimeLookup (fun _ => none)
        (deployTimeLookup (fun _ => none) ⟨[]⟩ "widget:alpha"
          [("a", "urlA"), ("b", "urlB")] none).2 "widget:beta"
        [("a", "uA2"), ("b", "uB2")] none = (Except.ok r2, st2)
      ∧ countId st2 (mapIdOf "widget:alpha") ≤ 1
      ∧ (r2 = Expr.findInMap (mapIdOf "widget:alpha") Aws.REGION (rowKeyOf "widget:beta") →
          ∃ cells, tryFindChild st2 (mapIdOf "widget:alpha") =
              some (Construct.cfnMapping cells)
            ∧ ∀ region w, lookupPairs [("a", "uA2"), ("b", "uB2")] region = some w →
                getCell cells region (rowKeyOf "widget:beta") = some w) :=
  claim2_table_reuse_idempotent (fun _ => none) ⟨[]⟩ "widget:alpha" "widget:beta"
    [("a", "urlA"), ("b", "urlB")] [("a", "uA2"), ("b", "uB2")] none none _ _
    (by decide) rfl (by decide) (fun c hc => Option.noConfusion hc) (by decide) (by decide)

end RegionLookup
